import Mathlib

/-!
Verification of the wildfire deployment simulator
(`src/Backend/current_optimise.py`, with `select_resource` shared verbatim
with `src/samp.py`).

The Python code is shallowly embedded: dictionaries become structures,
in-place mutation becomes explicit state passing (functions that mutate a
list return the list's final contents), exceptions (`KeyError`,
`ValueError`, `IndexError`) become `Except String` / `Option`, and
`datetime` objects become a six-field record compared lexicographically.
Python's `list.sort(key=...)` is a stable sort; a stable sort's output is
uniquely determined by the comparison (sorted output whose equal-key
sublists coincide with the input's), so it is modeled by a stable
insertion sort `stableSort`, which produces the identical list.
-/

namespace Wildfire

/-! ### Stable sort (model of Python `list.sort`) -/

/-- Insert `x` into `s`: `x` is placed before the first element `y` with
`le x y`.  When `le` is a total preorder this keeps an earlier input
element before later elements with an equal key, matching the stability
guarantee of Python's `list.sort`. -/
def insertLe (le : α → α → Bool) (x : α) : List α → List α
  | [] => [x]
  | y :: t => if le x y then x :: y :: t else y :: insertLe le x t

/-- Stable sort by the boolean comparison `le`; extensionally equal to
Python's `list.sort` whenever `le` is a total preorder. -/
def stableSort (le : α → α → Bool) : List α → List α
  | [] => []
  | x :: xs => insertLe le x (stableSort le xs)

/-! ### Resource catalog and pool (`resource_specs`, `resource_pool`) -/

/-- One deployable resource unit: the dictionaries appended to
`resource_pool` in the source. -/
structure RUnit where
  resource_type : String
  deployment_minutes : Nat
  operational_cost : Nat
deriving DecidableEq, Repr

/-- The `resource_specs` dictionary, in Python insertion order:
(name, deployment_minutes, operational_cost, count). -/
def resource_specs : List (String × Nat × Nat × Nat) :=
  [("Smoke Jumpers", 30, 5000, 5),
   ("Fire Engines", 60, 2000, 10),
   ("Helicopters", 45, 8000, 3),
   ("Tanker Planes", 120, 15000, 2),
   ("Ground Crews", 90, 3000, 8)]

/-- Expansion of one catalog entry into `count` identical units. -/
def expandSpec (s : String × Nat × Nat × Nat) : List RUnit :=
  List.replicate s.2.2.2
    { resource_type := s.1, deployment_minutes := s.2.1, operational_cost := s.2.2.1 }

/-- The module-level `resource_pool`: every spec expanded to its unit
count, in catalog order. -/
def resource_pool : List RUnit := (resource_specs.map expandSpec).flatten

/-- The `damage_costs` dictionary read through `.get(severity, 0)`:
unknown keys yield the default 0. -/
def damage_costs_get (s : String) : Nat :=
  if s = "low" then 50000
  else if s = "medium" then 100000
  else if s = "high" then 200000
  else 0

/-! ### Selection heuristic (`select_resource`) -/

/-- The high-severity sort key `(deployment_minutes, operational_cost)`,
as a lexicographic boolean comparison (Python tuple order). -/
def fastKeyLe (a b : RUnit) : Bool :=
  a.deployment_minutes < b.deployment_minutes ||
    (a.deployment_minutes == b.deployment_minutes &&
      a.operational_cost ≤ b.operational_cost)

/-- The low-severity sort key `(operational_cost, deployment_minutes)`,
as a lexicographic boolean comparison (Python tuple order). -/
def cheapKeyLe (a b : RUnit) : Bool :=
  a.operational_cost < b.operational_cost ||
    (a.operational_cost == b.operational_cost &&
      a.deployment_minutes ≤ b.deployment_minutes)

/-- The medium-severity composite score
`operational_cost + factor * deployment_minutes` with `factor = 50`. -/
def mediumScore (r : RUnit) : Nat := r.operational_cost + 50 * r.deployment_minutes

/-- Comparison by `mediumScore`. -/
def mediumKeyLe (a b : RUnit) : Bool := mediumScore a ≤ mediumScore b

/-- `select_resource`: sorts `available_resources` in place by the
severity-dependent key and returns element 0.  The model returns the
chosen unit together with the list's contents after the call (the
in-place sort is observable by the caller); `none` models the
`IndexError` raised by `[0]` on an empty list. -/
def select_resource (available_resources : List RUnit) (severity : String) :
    Option (RUnit × List RUnit) :=
  let sorted :=
    if severity = "high" then stableSort fastKeyLe available_resources
    else if severity = "low" then stableSort cheapKeyLe available_resources
    else if severity = "medium" then stableSort mediumKeyLe available_resources
    else stableSort cheapKeyLe available_resources
  match sorted with
  | [] => none
  | u :: rest => some (u, u :: rest)

/-! ### Timestamps (`datetime.strptime` with `DATE_FORMAT = "%Y-%m-%d %H:%M:%S"`) -/

/-- A parsed `datetime` value.  Python compares `datetime` objects
lexicographically by (year, month, day, hour, minute, second). -/
structure DateTime where
  year : Nat
  month : Nat
  day : Nat
  hour : Nat
  minute : Nat
  second : Nat
deriving DecidableEq, Repr

/-- Strict lexicographic comparison of two datetimes. -/
def dtLt (a b : DateTime) : Bool :=
  a.year < b.year || (a.year == b.year &&
    (a.month < b.month || (a.month == b.month &&
      (a.day < b.day || (a.day == b.day &&
        (a.hour < b.hour || (a.hour == b.hour &&
          (a.minute < b.minute || (a.minute == b.minute &&
            a.second < b.second)))))))))

/-- Value of an ASCII digit. -/
def digitVal (c : Char) : Option Nat :=
  if c.isDigit then some (c.toNat - 48) else none

/-- Read exactly four digits (the `%Y` directive). -/
def read4 (cs : List Char) : Option (Nat × List Char) :=
  match cs with
  | c1 :: c2 :: c3 :: c4 :: rest => do
    let d1 ← digitVal c1
    let d2 ← digitVal c2
    let d3 ← digitVal c3
    let d4 ← digitVal c4
    some ((((d1 * 10 + d2) * 10 + d3) * 10 + d4), rest)
  | _ => none

/-- Read one or two digits, greedily (the `%m`, `%d`, `%H`, `%M`, `%S`
directives all match one or two digits; with a non-digit separator or
end of string following, greedy matching agrees with the CPython
`_strptime` regex). -/
def read2 (cs : List Char) : Option (Nat × List Char) :=
  match cs with
  | [] => none
  | c1 :: rest =>
    match digitVal c1 with
    | none => none
    | some d1 =>
      match rest with
      | c2 :: rest2 =>
        match digitVal c2 with
        | some d2 => some (d1 * 10 + d2, rest2)
        | none => some (d1, rest)
      | [] => some (d1, [])

/-- Consume the literal separator `c`. -/
def expectSep (c : Char) (cs : List Char) : Option (List Char) :=
  match cs with
  | c2 :: rest => if c2 = c then some rest else none
  | [] => none

/-- Gregorian leap-year rule, as validated by the `datetime` constructor. -/
def isLeapYear (y : Nat) : Bool := y % 4 == 0 && (y % 100 != 0 || y % 400 == 0)

/-- Days in a month, as validated by the `datetime` constructor. -/
def daysInMonth (y m : Nat) : Nat :=
  if m = 2 then (if isLeapYear y then 29 else 28)
  else if m = 4 ∨ m = 6 ∨ m = 9 ∨ m = 11 then 30
  else 31

/-- Model of `datetime.strptime(s, "%Y-%m-%d %H:%M:%S")`: four-digit
year, then `-`, 1-2 digit month, `-`, day, space, hour, `:`, minute,
`:`, second, end of input; field ranges validated as by the `datetime`
constructor (year ≥ 1, month 1-12, day within the month, hour ≤ 23,
minute ≤ 59, second ≤ 59).  `none` models the raised `ValueError`. -/
def strptime (s : String) : Option DateTime := do
  let cs := s.toList
  let (y, cs) ← read4 cs
  let cs ← expectSep '-' cs
  let (mo, cs) ← read2 cs
  let cs ← expectSep '-' cs
  let (d, cs) ← read2 cs
  let cs ← expectSep ' ' cs
  let (h, cs) ← read2 cs
  let cs ← expectSep ':' cs
  let (mi, cs) ← read2 cs
  let cs ← expectSep ':' cs
  let (sec, cs) ← read2 cs
  if cs = [] ∧ 1 ≤ y ∧ 1 ≤ mo ∧ mo ≤ 12 ∧ 1 ≤ d ∧ d ≤ daysInMonth y mo ∧
      h ≤ 23 ∧ mi ≤ 59 ∧ sec ≤ 59 then
    some { year := y, month := mo, day := d, hour := h, minute := mi, second := sec }
  else
    none

/-! ### Incidents (`wildfire_json` rows) -/

/-- The `timestamp` dictionary slot: initially the CSV string, overwritten
in the processing loop with the parsed `datetime` object. -/
inductive TsVal where
  | raw (s : String)
  | parsed (d : DateTime)
deriving DecidableEq, Repr

/-- One wildfire event dictionary, restricted to the keys the simulator
reads: `timestamp`, `severity`, and the optional `location` read through
`.get('location', 'Unknown')`. -/
structure Event where
  timestamp : TsVal
  severity : String
  location : Option String
deriving DecidableEq, Repr

/-! ### Event ordering (`sort_data`) -/

/-- The `severity_order` dictionary lookup used by the sort key; `none`
models the `KeyError` raised for any key other than the three exact
lowercase strings. -/
def severity_order (s : String) : Option Nat :=
  if s = "high" then some 1
  else if s = "medium" then some 2
  else if s = "low" then some 3
  else none

/-- The sort key of `sort_data`:
`(datetime.strptime(x["timestamp"], DATE_FORMAT), severity_order[x["severity"]])`.
Either lookup can raise. -/
def sortKeyOf (e : Event) : Except String (DateTime × Nat) :=
  match e.timestamp with
  | .raw s =>
    match strptime s with
    | some d =>
      match severity_order e.severity with
      | some r => Except.ok (d, r)
      | none => Except.error "KeyError: severity"
    | none => Except.error "ValueError: time data does not match format"
  | .parsed _ => Except.error "TypeError: strptime argument must be str"

/-- Lexicographic comparison of sort keys, as Python compares the
`(datetime, int)` tuples. -/
def keyLe (a b : DateTime × Nat) : Bool :=
  dtLt a.1 b.1 || (decide (a.1 = b.1) && a.2 ≤ b.2)

/-- Key computation for every list element, in list order, as
`list.sort(key=...)` performs before sorting; the first failing element's
exception propagates. -/
def decorate : List Event → Except String (List ((DateTime × Nat) × Event))
  | [] => Except.ok []
  | e :: rest =>
    match sortKeyOf e with
    | Except.error err => Except.error err
    | Except.ok k =>
      match decorate rest with
      | Except.error err => Except.error err
      | Except.ok ks => Except.ok ((k, e) :: ks)

/-- `sort_data`: stable in-place sort of the events by
`(timestamp, severity rank)`.  The model returns the list's new contents;
an exception from the key function propagates. -/
def sort_data (wildfire_data : List Event) : Except String (List Event) :=
  match decorate wildfire_data with
  | Except.error err => Except.error err
  | Except.ok keyed =>
    Except.ok ((stableSort (fun a b => keyLe a.1 b.1) keyed).map (fun p => p.2))

/-! ### Deployment simulation (`simulate_deployment`) -/

/-- Python's `str.lower()`: characterwise lowercasing (the severities in
play are ASCII, where `Char.toLower` agrees with Python). -/
def strLower (s : String) : String := String.mk (s.data.map Char.toLower)

/-- A per-severity counter dictionary with the three fixed keys
`"low"`, `"medium"`, `"high"`. -/
structure SevCount where
  low : Nat
  medium : Nat
  high : Nat
deriving DecidableEq, Repr

/-- `counter[severity] += 1`; any other key raises `KeyError`. -/
def SevCount.bump (c : SevCount) (s : String) : Except String SevCount :=
  if s = "low" then Except.ok { c with low := c.low + 1 }
  else if s = "medium" then Except.ok { c with medium := c.medium + 1 }
  else if s = "high" then Except.ok { c with high := c.high + 1 }
  else Except.error "KeyError: severity counter"

/-- One `log_entry` dictionary, with the fields it holds when appended to
`incident_logs`. -/
structure LogEntry where
  event_index : Nat
  timestamp : DateTime
  severity : String
  location : String
  action : String
  resource : Option String
  operational_cost : Nat
deriving DecidableEq, Repr

/-- The summary `report` dictionary returned by `simulate_deployment`. -/
structure Report where
  fires_addressed : SevCount
  fires_delayed : SevCount
  operational_costs : Nat
  estimated_damage_costs : Nat
deriving DecidableEq, Repr

/-- The local mutable state of `simulate_deployment`'s processing loop. -/
structure SimState where
  total_operational_cost : Nat
  total_damage_cost : Nat
  addressed_count : Nat
  missed_count : Nat
  addressed_by_severity : SevCount
  missed_by_severity : SevCount
  low_missed_count : Nat
  available_resources : List RUnit
  incident_logs : List LogEntry
deriving DecidableEq, Repr

/-- Loop state before the first iteration. -/
def initState : SimState :=
  { total_operational_cost := 0
    total_damage_cost := 0
    addressed_count := 0
    missed_count := 0
    addressed_by_severity := { low := 0, medium := 0, high := 0 }
    missed_by_severity := { low := 0, medium := 0, high := 0 }
    low_missed_count := 0
    available_resources := resource_pool
    incident_logs := [] }

/-- `allowed_low_misses = max(0, len(wildfire_json) - len(resource_pool))`,
computed once before the loop. -/
def allowed_low_misses (wildfire_json : List Event) : Int :=
  max 0 ((wildfire_json.length : Int) - (resource_pool.length : Int))

/-- One iteration of the processing loop for the event at enumeration
index `idx`.  Returns the updated state together with the event's final
dictionary contents (its `timestamp` slot is overwritten with the parsed
datetime). -/
def step (allowed : Int) (st : SimState) (idx : Nat) (e : Event) :
    Except String (SimState × Event) :=
  match e.timestamp with
  | .parsed _ => Except.error "TypeError: strptime argument must be str"
  | .raw s =>
    match strptime s with
    | none => Except.error "ValueError: time data does not match format"
    | some d =>
      let e' : Event := { e with timestamp := TsVal.parsed d }
      let severity := strLower e.severity
      let location := e.location.getD "Unknown"
      if severity = "low" ∧ (st.low_missed_count : Int) < allowed then
        let n := st.low_missed_count + 1
        match st.missed_by_severity.bump severity with
        | Except.error err => Except.error err
        | Except.ok mbs =>
          let entry : LogEntry :=
            { event_index := idx, timestamp := d, severity := severity, location := location
              action := "Missed (allowed low miss #" ++ toString n ++ ")"
              resource := none, operational_cost := 0 }
          Except.ok
            ({ st with
                low_missed_count := n
                missed_count := st.missed_count + 1
                total_damage_cost := st.total_damage_cost + damage_costs_get severity
                missed_by_severity := mbs
                incident_logs := st.incident_logs ++ [entry] }, e')
      else if st.available_resources = [] then
        match st.missed_by_severity.bump severity with
        | Except.error err => Except.error err
        | Except.ok mbs =>
          let entry : LogEntry :=
            { event_index := idx, timestamp := d, severity := severity, location := location
              action := "Missed (no resources)"
              resource := none, operational_cost := 0 }
          Except.ok
            ({ st with
                missed_count := st.missed_count + 1
                total_damage_cost := st.total_damage_cost + damage_costs_get severity
                missed_by_severity := mbs
                incident_logs := st.incident_logs ++ [entry] }, e')
      else
        match select_resource st.available_resources severity with
        | none => Except.error "IndexError: list index out of range"
        | some (selected, sortedUnits) =>
          match st.addressed_by_severity.bump severity with
          | Except.error err => Except.error err
          | Except.ok abs =>
            let entry : LogEntry :=
              { event_index := idx, timestamp := d, severity := severity, location := location
                action := "Assigned"
                resource := some selected.resource_type
                operational_cost := selected.operational_cost }
            Except.ok
              ({ st with
                  available_resources := sortedUnits.erase selected
                  total_operational_cost := st.total_operational_cost + selected.operational_cost
                  addressed_count := st.addressed_count + 1
                  addressed_by_severity := abs
                  incident_logs := st.incident_logs ++ [entry] }, e')

/-- The `for idx, event in enumerate(wildfire_json)` loop: threads the
state through every event and collects each event's final contents. -/
def runLoop (allowed : Int) (st : SimState) (idx : Nat) :
    List Event → Except String (SimState × List Event)
  | [] => Except.ok (st, [])
  | e :: rest =>
    match step allowed st idx e with
    | Except.error err => Except.error err
    | Except.ok (st', e') =>
      match runLoop allowed st' (idx + 1) rest with
      | Except.error err => Except.error err
      | Except.ok (stF, rest') => Except.ok (stF, e' :: rest')

/-- `simulate_deployment`: sorts the input in place, computes the miss
allowance, runs the loop, and builds the report.  The model additionally
returns the input list's final contents (the caller-visible mutation). -/
def simulate_deployment (wildfire_json : List Event) :
    Except String (Report × List LogEntry × List Event) :=
  match sort_data wildfire_json with
  | Except.error err => Except.error err
  | Except.ok sortedEvents =>
    let allowed := allowed_low_misses wildfire_json
    match runLoop allowed initState 0 sortedEvents with
    | Except.error err => Except.error err
    | Except.ok (final, mutatedEvents) =>
      Except.ok
        ({ fires_addressed := final.addressed_by_severity
           fires_delayed := final.missed_by_severity
           operational_costs := final.total_operational_cost
           estimated_damage_costs := final.total_damage_cost },
         final.incident_logs, mutatedEvents)

/-! ### Lemmas about the stable sort -/

theorem insertLe_perm (le : α → α → Bool) (x : α) :
    ∀ l : List α, List.Perm (insertLe le x l) (x :: l) := by
  intro l
  induction l with
  | nil => simp [insertLe]
  | cons y t ih =>
    by_cases h : le x y
    · simp [insertLe, h]
    · simp only [insertLe, h, if_neg, Bool.not_eq_true]
      exact (ih.cons y).trans (List.Perm.swap x y t)

theorem stableSort_perm (le : α → α → Bool) :
    ∀ l : List α, List.Perm (stableSort le l) l := by
  intro l
  induction l with
  | nil => simp [stableSort]
  | cons x xs ih =>
    exact (insertLe_perm le x (stableSort le xs)).trans (ih.cons x)

theorem mem_insertLe {le : α → α → Bool} {x z : α} {l : List α} :
    z ∈ insertLe le x l ↔ z = x ∨ z ∈ l := by
  rw [(insertLe_perm le x l).mem_iff]
  simp

theorem mem_stableSort {le : α → α → Bool} {z : α} {l : List α} :
    z ∈ stableSort le l ↔ z ∈ l :=
  (stableSort_perm le l).mem_iff

theorem pairwise_insertLe {le : α → α → Bool}
    (total : ∀ a b, le a b = true ∨ le b a = true)
    (trans : ∀ a b c, le a b = true → le b c = true → le a c = true)
    {x : α} {l : List α} (h : l.Pairwise (fun a b => le a b = true)) :
    (insertLe le x l).Pairwise (fun a b => le a b = true) := by
  induction l with
  | nil => simp [insertLe]
  | cons y t ih =>
    rcases List.pairwise_cons.mp h with ⟨hy, ht⟩
    by_cases hxy : le x y
    · simp only [insertLe, hxy, if_pos]
      refine List.pairwise_cons.mpr ⟨?_, h⟩
      intro z hz
      rcases List.mem_cons.mp hz with rfl | hz
      · exact hxy
      · exact trans x y z hxy (hy z hz)
    · have hyx : le y x = true := by
        rcases total x y with h1 | h1
        · exact absurd h1 hxy
        · exact h1
      simp only [insertLe, hxy, if_neg, Bool.not_eq_true]
      refine List.pairwise_cons.mpr ⟨?_, ih ht⟩
      intro z hz
      rcases mem_insertLe.mp hz with rfl | hz
      · exact hyx
      · exact hy z hz

theorem pairwise_stableSort {le : α → α → Bool}
    (total : ∀ a b, le a b = true ∨ le b a = true)
    (trans : ∀ a b c, le a b = true → le b c = true → le a c = true)
    (l : List α) :
    (stableSort le l).Pairwise (fun a b => le a b = true) := by
  induction l with
  | nil => simp [stableSort]
  | cons x xs ih => exact pairwise_insertLe total trans ih

theorem stableSort_of_pairwise {le : α → α → Bool} :
    ∀ {l : List α}, l.Pairwise (fun a b => le a b = true) → stableSort le l = l := by
  intro l
  induction l with
  | nil => intro; rfl
  | cons x xs ih =>
    intro h
    rcases List.pairwise_cons.mp h with ⟨hx, hxs⟩
    have : stableSort le (x :: xs) = insertLe le x (stableSort le xs) := rfl
    rw [this, ih hxs]
    cases xs with
    | nil => rfl
    | cons y t => simp [insertLe, hx y (List.mem_cons_self y t)]

theorem filter_insertLe {le : α → α → Bool} {p : α → Bool}
    (hclass : ∀ a b, p a = true → p b = true → le a b = true)
    (x : α) (s : List α) :
    (insertLe le x s).filter p =
      if p x then x :: s.filter p else s.filter p := by
  induction s with
  | nil => by_cases hx : p x <;> simp [insertLe, List.filter, hx]
  | cons y t ih =>
    by_cases hxy : le x y
    · by_cases hx : p x <;> simp [insertLe, hxy, List.filter, hx]
    · by_cases hx : p x
      · have hy : p y = false := by
          by_contra hy
          exact hxy (hclass x y hx (Bool.of_not_eq_false hy))
        simp [insertLe, hxy, List.filter, hx, hy, ih]
      · by_cases hy : p y <;> simp [insertLe, hxy, List.filter, hx, hy, ih]

theorem filter_stableSort {le : α → α → Bool} {p : α → Bool}
    (hclass : ∀ a b, p a = true → p b = true → le a b = true) :
    ∀ l : List α, (stableSort le l).filter p = l.filter p := by
  intro l
  induction l with
  | nil => rfl
  | cons x xs ih =>
    have : stableSort le (x :: xs) = insertLe le x (stableSort le xs) := rfl
    rw [this, filter_insertLe hclass]
    by_cases hx : p x <;> simp [List.filter, hx, ih]

theorem stableSort_head_min {le : α → α → Bool}
    (total : ∀ a b, le a b = true ∨ le b a = true)
    (trans : ∀ a b c, le a b = true → le b c = true → le a c = true)
    {l : List α} {u : α} {rest : List α}
    (h : stableSort le l = u :: rest) :
    ∀ x ∈ l, le u x = true := by
  intro x hx
  have hx' : x ∈ u :: rest := by
    rw [← h]
    exact mem_stableSort.mpr hx
  have hp := @pairwise_stableSort _ le total trans l
  rw [h] at hp
  rcases List.mem_cons.mp hx' with rfl | hx'
  · rcases total x x with h1 | h1 <;> exact h1
  · exact (List.pairwise_cons.mp hp).1 x hx'

/-! ### The selection keys are total preorders -/

theorem fastKeyLe_total (a b : RUnit) : fastKeyLe a b = true ∨ fastKeyLe b a = true := by
  simp only [fastKeyLe, Bool.or_eq_true, Bool.and_eq_true, decide_eq_true_eq, beq_iff_eq]
  omega

theorem fastKeyLe_trans (a b c : RUnit) (h1 : fastKeyLe a b = true)
    (h2 : fastKeyLe b c = true) : fastKeyLe a c = true := by
  simp only [fastKeyLe, Bool.or_eq_true, Bool.and_eq_true, decide_eq_true_eq,
    beq_iff_eq] at h1 h2 ⊢
  omega

theorem cheapKeyLe_total (a b : RUnit) : cheapKeyLe a b = true ∨ cheapKeyLe b a = true := by
  simp only [cheapKeyLe, Bool.or_eq_true, Bool.and_eq_true, decide_eq_true_eq, beq_iff_eq]
  omega

theorem cheapKeyLe_trans (a b c : RUnit) (h1 : cheapKeyLe a b = true)
    (h2 : cheapKeyLe b c = true) : cheapKeyLe a c = true := by
  simp only [cheapKeyLe, Bool.or_eq_true, Bool.and_eq_true, decide_eq_true_eq,
    beq_iff_eq] at h1 h2 ⊢
  omega

theorem mediumKeyLe_total (a b : RUnit) : mediumKeyLe a b = true ∨ mediumKeyLe b a = true := by
  simp only [mediumKeyLe, decide_eq_true_eq]
  omega

theorem mediumKeyLe_trans (a b c : RUnit) (h1 : mediumKeyLe a b = true)
    (h2 : mediumKeyLe b c = true) : mediumKeyLe a c = true := by
  simp only [mediumKeyLe, decide_eq_true_eq] at h1 h2 ⊢
  omega

theorem keyLe_total (a b : DateTime × Nat) : keyLe a b = true ∨ keyLe b a = true := by
  obtain ⟨⟨y1, mo1, d1, h1, mi1, s1⟩, r1⟩ := a
  obtain ⟨⟨y2, mo2, d2, h2, mi2, s2⟩, r2⟩ := b
  simp only [keyLe, dtLt, Bool.or_eq_true, Bool.and_eq_true, decide_eq_true_eq,
    beq_iff_eq, DateTime.mk.injEq]
  omega

theorem keyLe_trans (a b c : DateTime × Nat) (hab : keyLe a b = true)
    (hbc : keyLe b c = true) : keyLe a c = true := by
  obtain ⟨⟨y1, mo1, d1, h1, mi1, s1⟩, r1⟩ := a
  obtain ⟨⟨y2, mo2, d2, h2, mi2, s2⟩, r2⟩ := b
  obtain ⟨⟨y3, mo3, d3, h3, mi3, s3⟩, r3⟩ := c
  simp only [keyLe, dtLt, Bool.or_eq_true, Bool.and_eq_true, decide_eq_true_eq,
    beq_iff_eq, DateTime.mk.injEq] at hab hbc ⊢
  omega

theorem keyLe_refl (a : DateTime × Nat) : keyLe a a = true := by
  rcases keyLe_total a a with h | h <;> exact h

/-! ### General facts about `select_resource` -/

/-- Sorting and taking the head returns a member of the collection that
minimizes the comparison, and leaves the collection sorted. -/
theorem selectSorted_spec {le : RUnit → RUnit → Bool}
    (total : ∀ a b, le a b = true ∨ le b a = true)
    (trans : ∀ a b c, le a b = true → le b c = true → le a c = true)
    {l : List RUnit} {u : RUnit} {l' : List RUnit}
    (h : (match stableSort le l with
          | [] => none
          | u :: rest => some (u, u :: rest)) = some (u, l')) :
    u ∈ l ∧ l' = stableSort le l ∧ (∀ x ∈ l, le u x = true) := by
  cases heq : stableSort le l with
  | nil => rw [heq] at h; exact absurd h (by simp)
  | cons v rest =>
    rw [heq] at h
    have hp : (v, v :: rest) = (u, l') := Option.some.inj h
    have hv : v = u := congrArg Prod.fst hp
    have hl : v :: rest = l' := congrArg Prod.snd hp
    subst hv
    subst hl
    refine ⟨?_, rfl, stableSort_head_min total trans heq⟩
    have : v ∈ stableSort le l := by rw [heq]; exact List.mem_cons_self v rest
    exact mem_stableSort.mp this

/-- Sorting and taking the head succeeds on a non-empty collection and
returns a member; the post-call collection is a permutation of the input. -/
theorem selectSorted_some {le : RUnit → RUnit → Bool} {l : List RUnit} (h : l ≠ []) :
    ∃ u l', (match stableSort le l with
             | [] => none
             | v :: rest => some (v, v :: rest)) = some (u, l') ∧
      u ∈ l ∧ List.Perm l' l := by
  cases heq : stableSort le l with
  | nil =>
    have : l.length = 0 := by
      have := (stableSort_perm le l).length_eq
      rw [heq] at this
      simpa using this.symm
    exact absurd (List.length_eq_zero.mp this) h
  | cons v rest =>
    refine ⟨v, v :: rest, rfl, ?_, ?_⟩
    · have : v ∈ stableSort le l := by rw [heq]; exact List.mem_cons_self v rest
      exact mem_stableSort.mp this
    · have := stableSort_perm le l
      rw [heq] at this
      exact this

/-- Selecting again from the collection left behind by a selection
returns the same unit and the same collection: the first call leaves the
list sorted, and sorting a sorted list is the identity. -/
theorem selectSorted_again {le : RUnit → RUnit → Bool}
    (total : ∀ a b, le a b = true ∨ le b a = true)
    (trans : ∀ a b c, le a b = true → le b c = true → le a c = true)
    {l : List RUnit} {u : RUnit} {l' : List RUnit}
    (h : (match stableSort le l with
          | [] => none
          | v :: rest => some (v, v :: rest)) = some (u, l')) :
    (match stableSort le l' with
     | [] => none
     | v :: rest => some (v, v :: rest)) = some (u, l') := by
  cases heq : stableSort le l with
  | nil => rw [heq] at h; exact absurd h (by simp)
  | cons v rest =>
    rw [heq] at h
    have hp : (v, v :: rest) = (u, l') := Option.some.inj h
    have hv : v = u := congrArg Prod.fst hp
    have hl : v :: rest = l' := congrArg Prod.snd hp
    subst hv
    have hsorted : (v :: rest).Pairwise (fun a b => le a b = true) := by
      have := @pairwise_stableSort _ le total trans l
      rw [heq] at this
      exact this
    have hss : stableSort le l' = l' := by
      rw [← hl]
      exact stableSort_of_pairwise hsorted
    rw [hss, ← hl]

/-! ### Concrete units for witnesses and counterexamples -/

/-- A Fire Engines unit as it appears in the pool. -/
def fireEngineUnit : RUnit :=
  { resource_type := "Fire Engines", deployment_minutes := 60, operational_cost := 2000 }

/-- A Smoke Jumpers unit as it appears in the pool. -/
def smokeJumperUnit : RUnit :=
  { resource_type := "Smoke Jumpers", deployment_minutes := 30, operational_cost := 5000 }

/-! ### Claim C3 -/

/-- Claim C3 as stated is false: `select_resource` sorts the collection
in place, so after the call the elements are generally in a different
order.  On `[Fire Engines, Smoke Jumpers]` with severity `"high"` the
post-call collection is `[Smoke Jumpers, Fire Engines]`, not the
original order. -/
theorem c3_select_mutates_counterexample :
    select_resource [fireEngineUnit, smokeJumperUnit] "high" =
      some (smokeJumperUnit, [smokeJumperUnit, fireEngineUnit]) ∧
    [smokeJumperUnit, fireEngineUnit] ≠ [fireEngineUnit, smokeJumperUnit] := by
  decide

/-- Claim C3, amended: for every non-empty available-units collection and
every severity, `select_resource` returns exactly one unit, a member of
the collection, and the collection afterwards holds the same elements as
before as a multiset (a permutation — reordered by the in-place sort),
with nothing removed (removal stays the caller's responsibility). -/
theorem c3_select_returns_one_unit_and_permutes
    (l : List RUnit) (severity : String) (h : l ≠ []) :
    ∃ u l', select_resource l severity = some (u, l') ∧ u ∈ l ∧ List.Perm l' l := by
  by_cases h1 : severity = "high"
  · subst h1; simp only [select_resource, if_pos rfl]; exact selectSorted_some h
  · by_cases h2 : severity = "low"
    · subst h2; simp only [select_resource]; norm_num; exact selectSorted_some h
    · by_cases h3 : severity = "medium"
      · subst h3; simp only [select_resource]; norm_num; exact selectSorted_some h
      · simp only [select_resource, if_neg h1, if_neg h2, if_neg h3]
        exact selectSorted_some h

/-- Witness for the amended C3 at a concrete input. -/
theorem c3_amended_witness :
    ([fireEngineUnit, smokeJumperUnit] : List RUnit) ≠ [] ∧
    ∃ u l', select_resource [fireEngineUnit, smokeJumperUnit] "medium" = some (u, l') ∧
      u ∈ [fireEngineUnit, smokeJumperUnit] ∧
      List.Perm l' [fireEngineUnit, smokeJumperUnit] :=
  ⟨by decide,
   c3_select_returns_one_unit_and_permutes [fireEngineUnit, smokeJumperUnit] "medium" (by decide)⟩

/-! ### Claim C6 -/

/-- Claim C6: on a non-empty collection `select_resource` returns a unit
minimizing the severity-dependent key — `(deployment_minutes,
operational_cost)` lexicographically for `"high"`, `(operational_cost,
deployment_minutes)` lexicographically for `"low"`, and the score
`operational_cost + 50 * deployment_minutes` for `"medium"`; and on the
full catalog pool, severity `"high"` selects a 30-minute Smoke Jumpers
unit. -/
theorem c6_select_resource_minimizes (l : List RUnit) (h : l ≠ []) :
    (∃ u l', select_resource l "high" = some (u, l') ∧ u ∈ l ∧ ∀ x ∈ l,
        u.deployment_minutes < x.deployment_minutes ∨
          (u.deployment_minutes = x.deployment_minutes ∧
            u.operational_cost ≤ x.operational_cost)) ∧
    (∃ u l', select_resource l "low" = some (u, l') ∧ u ∈ l ∧ ∀ x ∈ l,
        u.operational_cost < x.operational_cost ∨
          (u.operational_cost = x.operational_cost ∧
            u.deployment_minutes ≤ x.deployment_minutes)) ∧
    (∃ u l', select_resource l "medium" = some (u, l') ∧ u ∈ l ∧ ∀ x ∈ l,
        u.operational_cost + 50 * u.deployment_minutes ≤
          x.operational_cost + 50 * x.deployment_minutes) ∧
    (∃ l', select_resource resource_pool "high" =
        some ({ resource_type := "Smoke Jumpers", deployment_minutes := 30,
                operational_cost := 5000 }, l')) := by
  refine ⟨?_, ?_, ?_, ?_⟩
  · obtain ⟨u, l', heq, hmem, hperm⟩ := @selectSorted_some fastKeyLe l h
    have hmin := (selectSorted_spec fastKeyLe_total fastKeyLe_trans heq).2.2
    refine ⟨u, l', ?_, hmem, ?_⟩
    · simp only [select_resource, if_pos rfl]; exact heq
    · intro x hx
      have := hmin x hx
      simp only [fastKeyLe, Bool.or_eq_true, Bool.and_eq_true, decide_eq_true_eq,
        beq_iff_eq] at this
      omega
  · obtain ⟨u, l', heq, hmem, hperm⟩ := @selectSorted_some cheapKeyLe l h
    have hmin := (selectSorted_spec cheapKeyLe_total cheapKeyLe_trans heq).2.2
    refine ⟨u, l', ?_, hmem, ?_⟩
    · simp only [select_resource]; norm_num; exact heq
    · intro x hx
      have := hmin x hx
      simp only [cheapKeyLe, Bool.or_eq_true, Bool.and_eq_true, decide_eq_true_eq,
        beq_iff_eq] at this
      omega
  · obtain ⟨u, l', heq, hmem, hperm⟩ := @selectSorted_some mediumKeyLe l h
    have hmin := (selectSorted_spec mediumKeyLe_total mediumKeyLe_trans heq).2.2
    refine ⟨u, l', ?_, hmem, ?_⟩
    · simp only [select_resource]; norm_num; exact heq
    · intro x hx
      have := hmin x hx
      simp only [mediumKeyLe, mediumScore, decide_eq_true_eq] at this
      exact this
  · exact ⟨stableSort fastKeyLe resource_pool, by decide⟩

/-- Witness for C6 at the concrete two-unit collection. -/
theorem c6_witness :
    ([fireEngineUnit, smokeJumperUnit] : List RUnit) ≠ [] ∧
    ((∃ u l', select_resource [fireEngineUnit, smokeJumperUnit] "high" = some (u, l') ∧
        u ∈ [fireEngineUnit, smokeJumperUnit] ∧ ∀ x ∈ [fireEngineUnit, smokeJumperUnit],
        u.deployment_minutes < x.deployment_minutes ∨
          (u.deployment_minutes = x.deployment_minutes ∧
            u.operational_cost ≤ x.operational_cost)) ∧
    (∃ u l', select_resource [fireEngineUnit, smokeJumperUnit] "low" = some (u, l') ∧
        u ∈ [fireEngineUnit, smokeJumperUnit] ∧ ∀ x ∈ [fireEngineUnit, smokeJumperUnit],
        u.operational_cost < x.operational_cost ∨
          (u.operational_cost = x.operational_cost ∧
            u.deployment_minutes ≤ x.deployment_minutes)) ∧
    (∃ u l', select_resource [fireEngineUnit, smokeJumperUnit] "medium" = some (u, l') ∧
        u ∈ [fireEngineUnit, smokeJumperUnit] ∧ ∀ x ∈ [fireEngineUnit, smokeJumperUnit],
        u.operational_cost + 50 * u.deployment_minutes ≤
          x.operational_cost + 50 * x.deployment_minutes) ∧
    (∃ l', select_resource resource_pool "high" =
        some ({ resource_type := "Smoke Jumpers", deployment_minutes := 30,
                operational_cost := 5000 }, l'))) :=
  ⟨by decide, c6_select_resource_minimizes [fireEngineUnit, smokeJumperUnit] (by decide)⟩

/-! ### Claim C8 -/

/-- Claim C8: for a severity outside the three known values,
`select_resource` falls back to the low-severity rule and returns a unit
minimizing `(operational_cost, deployment_minutes)` lexicographically. -/
theorem c8_unknown_severity_low_rule (l : List RUnit) (severity : String) (h : l ≠ [])
    (h1 : severity ≠ "high") (h2 : severity ≠ "medium") (h3 : severity ≠ "low") :
    ∃ u l', select_resource l severity = some (u, l') ∧ u ∈ l ∧ ∀ x ∈ l,
      u.operational_cost < x.operational_cost ∨
        (u.operational_cost = x.operational_cost ∧
          u.deployment_minutes ≤ x.deployment_minutes) := by
  obtain ⟨u, l', heq, hmem, hperm⟩ := @selectSorted_some cheapKeyLe l h
  have hmin := (selectSorted_spec cheapKeyLe_total cheapKeyLe_trans heq).2.2
  refine ⟨u, l', ?_, hmem, ?_⟩
  · simp only [select_resource, if_neg h1, if_neg h3, if_neg h2]; exact heq
  · intro x hx
    have := hmin x hx
    simp only [cheapKeyLe, Bool.or_eq_true, Bool.and_eq_true, decide_eq_true_eq,
      beq_iff_eq] at this
    omega

/-- Witness for C8 at severity `"unknown"`. -/
theorem c8_witness :
    ([fireEngineUnit, smokeJumperUnit] : List RUnit) ≠ [] ∧
    ∃ u l', select_resource [fireEngineUnit, smokeJumperUnit] "unknown" = some (u, l') ∧
      u ∈ [fireEngineUnit, smokeJumperUnit] ∧ ∀ x ∈ [fireEngineUnit, smokeJumperUnit],
      u.operational_cost < x.operational_cost ∨
        (u.operational_cost = x.operational_cost ∧
          u.deployment_minutes ≤ x.deployment_minutes) :=
  ⟨by decide,
   c8_unknown_severity_low_rule [fireEngineUnit, smokeJumperUnit] "unknown" (by decide)
     (by decide) (by decide) (by decide)⟩

/-! ### Claim C9 -/

/-- Claim C9: `select_resource` is deterministic.  As a pure Lean
function it trivially returns equal results on equal inputs; the
meaningful reading for the Python code — whose first call re-orders the
list in place — is that invoking it again on the collection the first
call left behind returns the same unit and the same collection, because
sorting an already-sorted list changes nothing. -/
theorem c9_select_resource_deterministic (l : List RUnit) (severity : String)
    (u : RUnit) (l' : List RUnit) (h : select_resource l severity = some (u, l')) :
    select_resource l' severity = some (u, l') := by
  by_cases h1 : severity = "high"
  · subst h1
    simp only [select_resource, if_pos rfl] at h ⊢
    exact selectSorted_again fastKeyLe_total fastKeyLe_trans h
  · by_cases h2 : severity = "low"
    · subst h2
      simp only [select_resource] at h ⊢
      norm_num at h ⊢
      exact selectSorted_again cheapKeyLe_total cheapKeyLe_trans h
    · by_cases h3 : severity = "medium"
      · subst h3
        simp only [select_resource] at h ⊢
        norm_num at h ⊢
        exact selectSorted_again mediumKeyLe_total mediumKeyLe_trans h
      · simp only [select_resource, if_neg h1, if_neg h2, if_neg h3] at h ⊢
        exact selectSorted_again cheapKeyLe_total cheapKeyLe_trans h

/-- Witness for C9: repeating the selection on the collection left by a
first call returns the same Fire Engines unit. -/
theorem c9_witness :
    select_resource [smokeJumperUnit, fireEngineUnit] "low" =
      some (fireEngineUnit, [fireEngineUnit, smokeJumperUnit]) ∧
    select_resource [fireEngineUnit, smokeJumperUnit] "low" =
      some (fireEngineUnit, [fireEngineUnit, smokeJumperUnit]) :=
  ⟨by decide,
   c9_select_resource_deterministic [smokeJumperUnit, fireEngineUnit] "low"
     fireEngineUnit [fireEngineUnit, smokeJumperUnit] (by decide)⟩

/-! ### Facts about `decorate` and `sort_data` -/

/-- The sort key of an event, as an optional value (the key function
either produces this key or raises). -/
def evKey (e : Event) : Option (DateTime × Nat) := (sortKeyOf e).toOption

theorem decorate_map_snd :
    ∀ {l : List Event} {keyed : List ((DateTime × Nat) × Event)},
      decorate l = Except.ok keyed → keyed.map (fun p => p.2) = l := by
  intro l
  induction l with
  | nil => intro keyed h; cases h; rfl
  | cons e rest ih =>
    intro keyed h
    simp only [decorate] at h
    cases hk : sortKeyOf e with
    | error err => rw [hk] at h; exact Except.noConfusion h
    | ok k =>
      rw [hk] at h
      cases hr : decorate rest with
      | error err => rw [hr] at h; exact Except.noConfusion h
      | ok ks =>
        rw [hr] at h
        have hkeyed : (k, e) :: ks = keyed := Except.ok.inj h
        subst hkeyed
        simp [ih hr]

theorem decorate_mem :
    ∀ {l : List Event} {keyed : List ((DateTime × Nat) × Event)},
      decorate l = Except.ok keyed → ∀ p ∈ keyed, sortKeyOf p.2 = Except.ok p.1 := by
  intro l
  induction l with
  | nil => intro keyed h; cases h; intro p hp; exact absurd hp (by simp)
  | cons e rest ih =>
    intro keyed h
    simp only [decorate] at h
    cases hk : sortKeyOf e with
    | error err => rw [hk] at h; exact Except.noConfusion h
    | ok k =>
      rw [hk] at h
      cases hr : decorate rest with
      | error err => rw [hr] at h; exact Except.noConfusion h
      | ok ks =>
        rw [hr] at h
        have hkeyed : (k, e) :: ks = keyed := Except.ok.inj h
        subst hkeyed
        intro p hp
        rcases List.mem_cons.mp hp with rfl | hp
        · exact hk
        · exact ih hr p hp

/-- Inversion of `sort_data`: a successful sort comes from a successful
decoration, sorted by key. -/
theorem sort_data_inv {ev l' : List Event} (h : sort_data ev = Except.ok l') :
    ∃ keyed, decorate ev = Except.ok keyed ∧
      l' = (stableSort (fun a b => keyLe a.1 b.1) keyed).map (fun p => p.2) := by
  simp only [sort_data] at h
  cases hd : decorate ev with
  | error err => rw [hd] at h; exact Except.noConfusion h
  | ok keyed =>
    rw [hd] at h
    exact ⟨keyed, rfl, (Except.ok.inj h).symm⟩

theorem sort_data_perm {ev l' : List Event} (h : sort_data ev = Except.ok l') :
    List.Perm l' ev := by
  obtain ⟨keyed, hd, rfl⟩ := sort_data_inv h
  have h1 := (stableSort_perm (fun a b => keyLe a.1 b.1) keyed).map (fun p => p.2)
  rw [decorate_map_snd hd] at h1
  exact h1

/-- Filtering the projected events of a decorated list commutes with the
projection. -/
theorem filter_map_snd (p : Event → Bool) :
    ∀ l : List ((DateTime × Nat) × Event),
      (l.map (fun pr => pr.2)).filter p =
        (l.filter (fun pr => p pr.2)).map (fun pr => pr.2) := by
  intro l
  induction l with
  | nil => rfl
  | cons a t ih =>
    by_cases h : p a.2 <;> simp [List.filter, h, ih]

/-! ### Claim C5 -/

/-- Claim C5: `sort_data` reorders the incidents into the order of a
stable sort on the key (parsed timestamp, severity rank) with rank
high = 1 < medium = 2 < low = 3: the output is a permutation of the
input, consecutive outputs are non-decreasing in the lexicographic key
order `keyLe`, and for every key value the sublist of incidents carrying
that key keeps its input order (stability; incidents equal on both
timestamp and severity retain their relative input order). -/
theorem c5_sort_data_stable_sorted (ev l' : List Event)
    (h : sort_data ev = Except.ok l') :
    List.Perm l' ev ∧
    l'.Pairwise (fun a b => ∃ ka kb, evKey a = some ka ∧ evKey b = some kb ∧
      keyLe ka kb = true) ∧
    ∀ k, l'.filter (fun e => decide (evKey e = some k)) =
      ev.filter (fun e => decide (evKey e = some k)) := by
  obtain ⟨keyed, hd, rfl⟩ := sort_data_inv h
  have hperm := sort_data_perm h
  have hmemS : ∀ p ∈ stableSort (fun a b => keyLe a.1 b.1) keyed,
      sortKeyOf p.2 = Except.ok p.1 := by
    intro p hp
    exact decorate_mem hd p (mem_stableSort.mp hp)
  refine ⟨hperm, ?_, ?_⟩
  · have hp := @pairwise_stableSort ((DateTime × Nat) × Event)
      (fun a b => keyLe a.1 b.1)
      (fun a b => keyLe_total a.1 b.1)
      (fun a b c => keyLe_trans a.1 b.1 c.1) keyed
    rw [List.pairwise_map]
    refine hp.imp_of_mem ?_
    intro a b ha hb hab
    refine ⟨a.1, b.1, ?_, ?_, hab⟩
    · simp [evKey, hmemS a ha, Except.toOption]
    · simp [evKey, hmemS b hb, Except.toOption]
  · intro k
    have step1 : ((stableSort (fun a b => keyLe a.1 b.1) keyed).map (fun p => p.2)).filter
        (fun e => decide (evKey e = some k)) =
        ((stableSort (fun a b => keyLe a.1 b.1) keyed).filter
          (fun p => decide (evKey p.2 = some k))).map (fun p => p.2) := by
      exact filter_map_snd (fun e => decide (evKey e = some k))
        (stableSort (fun a b => keyLe a.1 b.1) keyed)
    have congr1 : (stableSort (fun a b => keyLe a.1 b.1) keyed).filter
        (fun p => decide (evKey p.2 = some k)) =
        (stableSort (fun a b => keyLe a.1 b.1) keyed).filter
          (fun p => decide (p.1 = k)) := by
      refine List.filter_congr ?_
      intro p hp
      have : evKey p.2 = some p.1 := by simp [evKey, hmemS p hp, Except.toOption]
      simp [this]
    have step2 : (stableSort (fun a b => keyLe a.1 b.1) keyed).filter
        (fun p => decide (p.1 = k)) = keyed.filter (fun p => decide (p.1 = k)) := by
      refine filter_stableSort ?_ keyed
      intro a b ha hb
      have h1 : a.1 = k := by simpa using ha
      have h2 : b.1 = k := by simpa using hb
      rw [h1, h2]
      exact keyLe_refl k
    have congr2 : keyed.filter (fun p => decide (p.1 = k)) =
        keyed.filter (fun p => decide (evKey p.2 = some k)) := by
      refine List.filter_congr ?_
      intro p hp
      have : evKey p.2 = some p.1 := by simp [evKey, decorate_mem hd p hp, Except.toOption]
      simp [this]
    have step3 : (keyed.filter (fun p => decide (evKey p.2 = some k))).map (fun p => p.2) =
        (keyed.map (fun p => p.2)).filter (fun e => decide (evKey e = some k)) := by
      exact (filter_map_snd (fun e => decide (evKey e = some k)) keyed).symm
    rw [step1, congr1, step2, congr2, step3, decorate_map_snd hd]

/-- A high-severity event, timestamp tied with `evLowTie`. -/
def evHighTie : Event :=
  { timestamp := TsVal.raw "2024-01-01 10:00:00", severity := "high", location := some "H" }

/-- A low-severity event, timestamp tied with `evHighTie`. -/
def evLowTie : Event :=
  { timestamp := TsVal.raw "2024-01-01 10:00:00", severity := "low", location := some "L" }

/-- Witness for C5: with a timestamp tie, the high-severity event moves
in front of the earlier-listed low-severity event. -/
theorem c5_witness :
    sort_data [evLowTie, evHighTie] = Except.ok [evHighTie, evLowTie] ∧
    (List.Perm [evHighTie, evLowTie] [evLowTie, evHighTie] ∧
     List.Pairwise (fun a b => ∃ ka kb, evKey a = some ka ∧ evKey b = some kb ∧
       keyLe ka kb = true) [evHighTie, evLowTie] ∧
     ∀ k, List.filter (fun e => decide (evKey e = some k)) [evHighTie, evLowTie] =
       List.filter (fun e => decide (evKey e = some k)) [evLowTie, evHighTie]) :=
  ⟨by rfl, c5_sort_data_stable_sorted [evLowTie, evHighTie] [evHighTie, evLowTie] (by rfl)⟩

/-! ### The processing loop, step by step -/

/-- A log entry records a policy-driven low miss exactly when its action
string is neither of the two fixed action strings of the other outcomes
(its action is `"Missed (allowed low miss #N)"`). -/
def lowPolicyLog (L : LogEntry) : Bool :=
  decide (L.action ≠ "Assigned" ∧ L.action ≠ "Missed (no resources)")

/-- What one event's dictionary looks like after the loop body ran on it:
its `timestamp` string replaced by the parsed datetime. -/
def eventParse (e : Event) : Event :=
  match e.timestamp with
  | .raw s =>
    match strptime s with
    | some d => { e with timestamp := TsVal.parsed d }
    | none => e
  | .parsed _ => e

theorem lowMissAction_ne (n : Nat) (t : String) (ht : t.length ≤ 25) :
    ("Missed (allowed low miss #" ++ toString n ++ ")") ≠ t := by
  intro hcontra
  have hlen := congrArg String.length hcontra
  rw [String.length_append, String.length_append] at hlen
  have h1 : ("Missed (allowed low miss #" : String).length = 26 := by decide
  have h2 : ((")" : String)).length = 1 := by decide
  rw [h1, h2] at hlen
  omega

/-- Everything a successful loop iteration guarantees: the event's
timestamp was parsed, exactly one log entry was appended carrying the
enumeration index, the low-miss counter moved only on a policy miss (and
only then is the entry's action distinct from the two other action
strings), the severity (lowercased) is one of the three known values,
and exactly one per-severity counter (addressed or missed) was bumped,
matching the event's lowercased severity. -/
theorem step_ok_spec {allowed : Int} {st : SimState} {idx : Nat} {e : Event}
    {st' : SimState} {e' : Event}
    (h : step allowed st idx e = Except.ok (st', e')) :
    (∃ s d, e.timestamp = TsVal.raw s ∧ strptime s = some d ∧
      e' = { e with timestamp := TsVal.parsed d }) ∧
    (∃ entry : LogEntry, st'.incident_logs = st.incident_logs ++ [entry] ∧
      entry.event_index = idx ∧
      ((strLower e.severity = "low" ∧ (st.low_missed_count : Int) < allowed ∧
          st'.low_missed_count = st.low_missed_count + 1 ∧ lowPolicyLog entry = true) ∨
       (¬(strLower e.severity = "low" ∧ (st.low_missed_count : Int) < allowed) ∧
          st'.low_missed_count = st.low_missed_count ∧ lowPolicyLog entry = false))) ∧
    (strLower e.severity = "low" ∨ strLower e.severity = "medium" ∨
      strLower e.severity = "high") ∧
    (st'.addressed_by_severity.low + st'.missed_by_severity.low =
      st.addressed_by_severity.low + st.missed_by_severity.low +
        (if strLower e.severity = "low" then 1 else 0)) ∧
    (st'.addressed_by_severity.medium + st'.missed_by_severity.medium =
      st.addressed_by_severity.medium + st.missed_by_severity.medium +
        (if strLower e.severity = "medium" then 1 else 0)) ∧
    (st'.addressed_by_severity.high + st'.missed_by_severity.high =
      st.addressed_by_severity.high + st.missed_by_severity.high +
        (if strLower e.severity = "high" then 1 else 0)) := by
  simp only [step] at h
  cases hts : e.timestamp with
  | parsed d => simp only [hts] at h; exact Except.noConfusion h
  | raw s =>
    simp only [hts] at h
    cases hp : strptime s with
    | none => simp only [hp] at h; exact Except.noConfusion h
    | some d =>
      simp only [hp] at h
      by_cases hlow : strLower e.severity = "low" ∧ (st.low_missed_count : Int) < allowed
      · rw [if_pos hlow] at h
        rw [hlow.1] at h
        simp only [SevCount.bump, reduceIte] at h
        have hpair := Except.ok.inj h
        have hst : _ = st' := congrArg Prod.fst hpair
        have he : _ = e' := congrArg Prod.snd hpair
        subst hst
        subst he
        refine ⟨⟨s, d, rfl, hp, rfl⟩, ?_, Or.inl hlow.1, ?_, ?_, ?_⟩
        · refine ⟨_, rfl, rfl, Or.inl ⟨hlow.1, hlow.2, rfl, ?_⟩⟩
          simp only [lowPolicyLog, decide_eq_true_eq]
          exact ⟨lowMissAction_ne _ _ (by decide), lowMissAction_ne _ _ (by decide)⟩
        · simp [hlow.1] <;> omega
        · simp [hlow.1] <;> omega
        · simp [hlow.1] <;> omega
      · rw [if_neg hlow] at h
        by_cases hav : st.available_resources = []
        · rw [if_pos hav] at h
          rcases hsev : SevCount.bump st.missed_by_severity (strLower e.severity) with
            err | mbs
          · simp only [hsev] at h; exact Except.noConfusion h
          · simp only [hsev] at h
            have hpair := Except.ok.inj h
            have hst : _ = st' := congrArg Prod.fst hpair
            have he : _ = e' := congrArg Prod.snd hpair
            subst hst
            subst he
            simp only [SevCount.bump] at hsev
            by_cases hs1 : strLower e.severity = "low"
            · rw [if_pos hs1] at hsev
              have hmbs := Except.ok.inj hsev
              subst hmbs
              refine ⟨⟨s, d, rfl, hp, rfl⟩, ?_, Or.inl hs1, by simp [hs1] <;> omega, by simp [hs1] <;> omega,
                by simp [hs1] <;> omega⟩
              exact ⟨_, rfl, rfl, Or.inr ⟨hlow, rfl, by simp [lowPolicyLog]⟩⟩
            · rw [if_neg hs1] at hsev
              by_cases hs2 : strLower e.severity = "medium"
              · rw [if_pos hs2] at hsev
                have hmbs := Except.ok.inj hsev
                subst hmbs
                refine ⟨⟨s, d, rfl, hp, rfl⟩, ?_, Or.inr (Or.inl hs2), by simp [hs1, hs2] <;> omega,
                  by simp [hs2] <;> omega, by simp [hs1, hs2] <;> omega⟩
                exact ⟨_, rfl, rfl, Or.inr ⟨hlow, rfl, by simp [lowPolicyLog]⟩⟩
              · rw [if_neg hs2] at hsev
                by_cases hs3 : strLower e.severity = "high"
                · rw [if_pos hs3] at hsev
                  have hmbs := Except.ok.inj hsev
                  subst hmbs
                  refine ⟨⟨s, d, rfl, hp, rfl⟩, ?_, Or.inr (Or.inr hs3), by simp [hs1, hs3] <;> omega,
                    by simp [hs2, hs3] <;> omega, by simp [hs3] <;> omega⟩
                  exact ⟨_, rfl, rfl, Or.inr ⟨hlow, rfl, by simp [lowPolicyLog]⟩⟩
                · rw [if_neg hs3] at hsev
                  exact Except.noConfusion hsev
        · rw [if_neg hav] at h
          rcases hsel : select_resource st.available_resources (strLower e.severity) with
            _ | ⟨selected, sortedUnits⟩
          · simp only [hsel] at h; exact Except.noConfusion h
          · simp only [hsel] at h
            rcases hsev : SevCount.bump st.addressed_by_severity (strLower e.severity) with
              err | abs
            · simp only [hsev] at h; exact Except.noConfusion h
            · simp only [hsev] at h
              have hpair := Except.ok.inj h
              have hst : _ = st' := congrArg Prod.fst hpair
              have he : _ = e' := congrArg Prod.snd hpair
              subst hst
              subst he
              simp only [SevCount.bump] at hsev
              by_cases hs1 : strLower e.severity = "low"
              · rw [if_pos hs1] at hsev
                have habs := Except.ok.inj hsev
                subst habs
                refine ⟨⟨s, d, rfl, hp, rfl⟩, ?_, Or.inl hs1, by simp [hs1] <;> omega, by simp [hs1] <;> omega,
                  by simp [hs1] <;> omega⟩
                exact ⟨_, rfl, rfl, Or.inr ⟨hlow, rfl, by simp [lowPolicyLog]⟩⟩
              · rw [if_neg hs1] at hsev
                by_cases hs2 : strLower e.severity = "medium"
                · rw [if_pos hs2] at hsev
                  have habs := Except.ok.inj hsev
                  subst habs
                  refine ⟨⟨s, d, rfl, hp, rfl⟩, ?_, Or.inr (Or.inl hs2), by simp [hs1, hs2] <;> omega,
                    by simp [hs2] <;> omega, by simp [hs1, hs2] <;> omega⟩
                  exact ⟨_, rfl, rfl, Or.inr ⟨hlow, rfl, by simp [lowPolicyLog]⟩⟩
                · rw [if_neg hs2] at hsev
                  by_cases hs3 : strLower e.severity = "high"
                  · rw [if_pos hs3] at hsev
                    have habs := Except.ok.inj hsev
                    subst habs
                    refine ⟨⟨s, d, rfl, hp, rfl⟩, ?_, Or.inr (Or.inr hs3), by simp [hs1, hs3] <;> omega,
                      by simp [hs2, hs3] <;> omega, by simp [hs3] <;> omega⟩
                    exact ⟨_, rfl, rfl, Or.inr ⟨hlow, rfl, by simp [lowPolicyLog]⟩⟩
                  · rw [if_neg hs3] at hsev
                    exact Except.noConfusion hsev

/-- Inversion of one loop unfolding. -/
theorem runLoop_cons_inv {allowed : Int} {st : SimState} {idx : Nat} {e : Event}
    {rest : List Event} {stF : SimState} {fin : List Event}
    (h : runLoop allowed st idx (e :: rest) = Except.ok (stF, fin)) :
    ∃ st' e' rest', step allowed st idx e = Except.ok (st', e') ∧
      runLoop allowed st' (idx + 1) rest = Except.ok (stF, rest') ∧ fin = e' :: rest' := by
  simp only [runLoop] at h
  cases hs : step allowed st idx e with
  | error err => simp only [hs] at h; exact Except.noConfusion h
  | ok p =>
    obtain ⟨st', e'⟩ := p
    simp only [hs] at h
    cases hr : runLoop allowed st' (idx + 1) rest with
    | error err => simp only [hr] at h; exact Except.noConfusion h
    | ok q =>
      obtain ⟨stF', rest'⟩ := q
      simp only [hr] at h
      have hp2 := Except.ok.inj h
      have h1 : stF' = stF := congrArg Prod.fst hp2
      have h2 : e' :: rest' = fin := congrArg Prod.snd hp2
      subst h1
      exact ⟨st', e', rest', rfl, hr, h2.symm⟩

/-- Log bookkeeping across the loop: one entry per event, event indices
enumerate the processing positions, and the final event dictionaries are
the parsed versions of the processed events, all timestamps parsed. -/
theorem runLoop_logs {allowed : Int} :
    ∀ {es : List Event} {st : SimState} {idx : Nat} {stF : SimState} {fin : List Event},
      runLoop allowed st idx es = Except.ok (stF, fin) →
      stF.incident_logs.length = st.incident_logs.length + es.length ∧
      stF.incident_logs.map (fun L => L.event_index) =
        st.incident_logs.map (fun L => L.event_index) ++ List.range' idx es.length ∧
      fin = es.map eventParse ∧
      ∀ e' ∈ fin, ∃ dd, e'.timestamp = TsVal.parsed dd := by
  intro es
  induction es with
  | nil =>
    intro st idx stF fin h
    simp only [runLoop] at h
    have hp := Except.ok.inj h
    have h1 : st = stF := congrArg Prod.fst hp
    have h2 : ([] : List Event) = fin := congrArg Prod.snd hp
    subst h1
    subst h2
    simp
  | cons e rest ih =>
    intro st idx stF fin h
    obtain ⟨st', e', rest', hstep, hloop, rfl⟩ := runLoop_cons_inv h
    obtain ⟨⟨s, d, hts, hsp, he'⟩, ⟨entry, hlogs, hidx, _⟩, _⟩ := step_ok_spec hstep
    obtain ⟨l1, l2, l3, l4⟩ := ih hloop
    have heparse : e' = eventParse e := by
      rw [he']
      simp only [eventParse, hts, hsp]
    refine ⟨?_, ?_, ?_, ?_⟩
    · rw [l1, hlogs]
      simp [Nat.add_assoc, Nat.add_comm, Nat.add_left_comm]
    · rw [l2, hlogs]
      simp [hidx, List.range'_succ]
    · rw [l3, heparse, List.map]
    · intro x hx
      rcases List.mem_cons.mp hx with rfl | hx
      · exact ⟨d, by rw [he']⟩
      · exact l4 x hx

/-- Low-miss bookkeeping across the loop: the number of appended
low-policy log entries equals the growth of the low-miss counter, and
the counter's final value is the allowance capped count of low-severity
events seen. -/
theorem runLoop_low {allowed : Int} :
    ∀ {es : List Event} {st : SimState} {idx : Nat} {stF : SimState} {fin : List Event},
      runLoop allowed st idx es = Except.ok (stF, fin) →
      (stF.incident_logs.countP lowPolicyLog + st.low_missed_count =
        st.incident_logs.countP lowPolicyLog + stF.low_missed_count) ∧
      (0 ≤ allowed → st.low_missed_count ≤ allowed.toNat →
        stF.low_missed_count = min allowed.toNat
          (st.low_missed_count + es.countP (fun e => decide (strLower e.severity = "low")))) := by
  intro es
  induction es with
  | nil =>
    intro st idx stF fin h
    simp only [runLoop] at h
    have hp := Except.ok.inj h
    have h1 : st = stF := congrArg Prod.fst hp
    subst h1
    refine ⟨rfl, ?_⟩
    intro _ hle
    simp
    omega
  | cons e rest ih =>
    intro st idx stF fin h
    obtain ⟨st', e', rest', hstep, hloop, rfl⟩ := runLoop_cons_inv h
    obtain ⟨-, ⟨entry, hlogs, -, hdisj⟩, -, -, -, -⟩ := step_ok_spec hstep
    obtain ⟨ih1, ih2⟩ := ih hloop
    rcases hdisj with ⟨hsevlow, hlt, hinc, hlp⟩ | ⟨hneg, hkeep, hlpf⟩
    · have hcnt : st'.incident_logs.countP lowPolicyLog =
          st.incident_logs.countP lowPolicyLog + 1 := by
        rw [hlogs, List.countP_append]
        simp [List.countP_cons, hlp]
      refine ⟨by omega, ?_⟩
      intro hA hle
      have hlt' : st.low_missed_count < allowed.toNat := by omega
      have := ih2 hA (by omega)
      rw [List.countP_cons]
      simp only [hsevlow, decide_eq_true_eq]
      simp
      omega
    · have hcnt : st'.incident_logs.countP lowPolicyLog =
          st.incident_logs.countP lowPolicyLog := by
        rw [hlogs, List.countP_append]
        simp [List.countP_cons, hlpf]
      refine ⟨by omega, ?_⟩
      intro hA hle
      have := ih2 hA (by omega)
      by_cases hsl : strLower e.severity = "low"
      · have hge : allowed ≤ (st.low_missed_count : Int) := by
          by_contra hcon
          exact hneg ⟨hsl, by omega⟩
        rw [List.countP_cons]
        simp only [hsl]
        simp
        omega
      · rw [List.countP_cons]
        simp only [hsl]
        simp
        omega

/-- Per-severity conservation across the loop: each processed event
bumps exactly one of its severity's addressed/missed counters. -/
theorem runLoop_sev {allowed : Int} :
    ∀ {es : List Event} {st : SimState} {idx : Nat} {stF : SimState} {fin : List Event},
      runLoop allowed st idx es = Except.ok (stF, fin) →
      (stF.addressed_by_severity.low + stF.missed_by_severity.low =
        st.addressed_by_severity.low + st.missed_by_severity.low +
          es.countP (fun e => decide (strLower e.severity = "low"))) ∧
      (stF.addressed_by_severity.medium + stF.missed_by_severity.medium =
        st.addressed_by_severity.medium + st.missed_by_severity.medium +
          es.countP (fun e => decide (strLower e.severity = "medium"))) ∧
      (stF.addressed_by_severity.high + stF.missed_by_severity.high =
        st.addressed_by_severity.high + st.missed_by_severity.high +
          es.countP (fun e => decide (strLower e.severity = "high"))) := by
  intro es
  induction es with
  | nil =>
    intro st idx stF fin h
    simp only [runLoop] at h
    have hp := Except.ok.inj h
    have h1 : st = stF := congrArg Prod.fst hp
    subst h1
    simp
  | cons e rest ih =>
    intro st idx stF fin h
    obtain ⟨st', e', rest', hstep, hloop, rfl⟩ := runLoop_cons_inv h
    obtain ⟨-, -, -, s1, s2, s3⟩ := step_ok_spec hstep
    obtain ⟨i1, i2, i3⟩ := ih hloop
    refine ⟨?_, ?_, ?_⟩
    · by_cases hsl : strLower e.severity = "low"
      · rw [if_pos hsl] at s1
        rw [List.countP_cons]
        simp only [hsl]
        simp
        omega
      · rw [if_neg hsl] at s1
        rw [List.countP_cons]
        simp only [hsl]
        simp
        omega
    · by_cases hsl : strLower e.severity = "medium"
      · rw [if_pos hsl] at s2
        rw [List.countP_cons]
        simp only [hsl]
        simp
        omega
      · rw [if_neg hsl] at s2
        rw [List.countP_cons]
        simp only [hsl]
        simp
        omega
    · by_cases hsl : strLower e.severity = "high"
      · rw [if_pos hsl] at s3
        rw [List.countP_cons]
        simp only [hsl]
        simp
        omega
      · rw [if_neg hsl] at s3
        rw [List.countP_cons]
        simp only [hsl]
        simp
        omega

/-- Inversion of a successful simulation into its sort and loop parts. -/
theorem simulate_inv {ev : List Event} {r : Report} {logs : List LogEntry}
    {fin : List Event}
    (h : simulate_deployment ev = Except.ok (r, logs, fin)) :
    ∃ sorted stF, sort_data ev = Except.ok sorted ∧
      runLoop (allowed_low_misses ev) initState 0 sorted = Except.ok (stF, fin) ∧
      logs = stF.incident_logs ∧
      r = { fires_addressed := stF.addressed_by_severity
            fires_delayed := stF.missed_by_severity
            operational_costs := stF.total_operational_cost
            estimated_damage_costs := stF.total_damage_cost } := by
  simp only [simulate_deployment] at h
  cases hsd : sort_data ev with
  | error err => simp only [hsd] at h; exact Except.noConfusion h
  | ok sorted =>
    simp only [hsd] at h
    cases hrl : runLoop (allowed_low_misses ev) initState 0 sorted with
    | error err => simp only [hrl] at h; exact Except.noConfusion h
    | ok q =>
      obtain ⟨stF, fin'⟩ := q
      simp only [hrl] at h
      have hp := Except.ok.inj h
      have h1 : _ = r := congrArg Prod.fst hp
      have h2 : stF.incident_logs = logs := congrArg (fun x => x.2.1) hp
      have h3 : fin' = fin := congrArg (fun x => x.2.2) hp
      subst h3
      exact ⟨sorted, stF, rfl, hrl, h2.symm, h1.symm⟩

/-- A loop iteration succeeds when the event's timestamp parses and its
lowercased severity is one of the three known values. -/
theorem step_total {allowed : Int} {st : SimState} {idx : Nat} {e : Event}
    (hsev : strLower e.severity = "low" ∨ strLower e.severity = "medium" ∨
      strLower e.severity = "high")
    (hts : ∃ s d, e.timestamp = TsVal.raw s ∧ strptime s = some d) :
    ∃ st' e', step allowed st idx e = Except.ok (st', e') := by
  obtain ⟨s, d, hraw, hp⟩ := hts
  simp only [step, hraw, hp]
  by_cases hlow : strLower e.severity = "low" ∧ (st.low_missed_count : Int) < allowed
  · rw [if_pos hlow, hlow.1]
    simp only [SevCount.bump, reduceIte]
    exact ⟨_, _, rfl⟩
  · rw [if_neg hlow]
    by_cases hav : st.available_resources = []
    · rw [if_pos hav]
      rcases hsev with h1 | h1 | h1 <;> rw [h1] <;> simp only [SevCount.bump, reduceIte] <;>
        exact ⟨_, _, rfl⟩
    · rw [if_neg hav]
      have hne : ∀ le : RUnit → RUnit → Bool, stableSort le st.available_resources ≠ [] := by
        intro le hnil
        have hl := (stableSort_perm le st.available_resources).length_eq
        rw [hnil] at hl
        exact hav (List.length_eq_zero.mp hl.symm)
      rcases hsev with h1 | h1 | h1 <;> rw [h1]
      · cases hsort : stableSort cheapKeyLe st.available_resources with
        | nil => exact absurd hsort (hne cheapKeyLe)
        | cons u rest =>
          simp only [select_resource]
          norm_num
          simp only [hsort, SevCount.bump, reduceIte]
          exact ⟨_, _, rfl⟩
      · cases hsort : stableSort mediumKeyLe st.available_resources with
        | nil => exact absurd hsort (hne mediumKeyLe)
        | cons u rest =>
          simp only [select_resource]
          norm_num
          simp only [hsort, SevCount.bump, reduceIte]
          exact ⟨_, _, rfl⟩
      · cases hsort : stableSort fastKeyLe st.available_resources with
        | nil => exact absurd hsort (hne fastKeyLe)
        | cons u rest =>
          simp only [select_resource, if_pos rfl]
          simp only [hsort, SevCount.bump, reduceIte]
          exact ⟨_, _, rfl⟩

/-- The loop succeeds on a list of events that all parse and carry known
severities. -/
theorem runLoop_total {allowed : Int} :
    ∀ {es : List Event} (st : SimState) (idx : Nat),
      (∀ e ∈ es, strLower e.severity = "low" ∨ strLower e.severity = "medium" ∨
        strLower e.severity = "high") →
      (∀ e ∈ es, ∃ s d, e.timestamp = TsVal.raw s ∧ strptime s = some d) →
      ∃ stF fin, runLoop allowed st idx es = Except.ok (stF, fin) := by
  intro es
  induction es with
  | nil => intro st idx _ _; exact ⟨st, [], rfl⟩
  | cons e rest ih =>
    intro st idx hsev hts
    obtain ⟨st', e', hstep⟩ := @step_total allowed st idx e
      (hsev e (List.mem_cons_self e rest)) (hts e (List.mem_cons_self e rest))
    obtain ⟨stF, fin, hloop⟩ := ih st' (idx + 1)
      (fun x hx => hsev x (List.mem_cons_of_mem e hx))
      (fun x hx => hts x (List.mem_cons_of_mem e hx))
    refine ⟨stF, e' :: fin, ?_⟩
    simp only [runLoop, hstep, hloop]

/-- Decoration succeeds when every event's timestamp parses and every
severity is exactly one of the three lowercase values. -/
theorem decorate_total :
    ∀ {l : List Event},
      (∀ e ∈ l, e.severity = "low" ∨ e.severity = "medium" ∨ e.severity = "high") →
      (∀ e ∈ l, ∃ s d, e.timestamp = TsVal.raw s ∧ strptime s = some d) →
      ∃ keyed, decorate l = Except.ok keyed := by
  intro l
  induction l with
  | nil => intro _ _; exact ⟨[], rfl⟩
  | cons e rest ih =>
    intro hsev hts
    obtain ⟨s, d, hraw, hp⟩ := hts e (List.mem_cons_self e rest)
    obtain ⟨ks, hks⟩ := ih (fun x hx => hsev x (List.mem_cons_of_mem e hx))
      (fun x hx => hts x (List.mem_cons_of_mem e hx))
    have hso : ∃ rk, severity_order e.severity = some rk := by
      rcases hsev e (List.mem_cons_self e rest) with h1 | h1 | h1 <;> rw [h1] <;>
        exact ⟨_, rfl⟩
    obtain ⟨rk, hr⟩ := hso
    refine ⟨((d, rk), e) :: ks, ?_⟩
    simp only [decorate, sortKeyOf, hraw, hp, hr, hks]

/-! ### Concrete events for witnesses and counterexamples -/

/-- A single medium-severity event. -/
def evMed : Event :=
  { timestamp := TsVal.raw "2024-03-05 14:30:00", severity := "medium", location := some "M" }

/-- A low-severity event reported at 10:00. -/
def evLate : Event :=
  { timestamp := TsVal.raw "2024-01-01 10:00:00", severity := "low", location := some "A" }

/-- A low-severity event reported at 09:00, listed after `evLate`. -/
def evEarly : Event :=
  { timestamp := TsVal.raw "2024-01-01 09:00:00", severity := "low", location := some "B" }

/-- A high-severity event reported at noon. -/
def evHotLate : Event :=
  { timestamp := TsVal.raw "2024-07-02 12:00:00", severity := "high", location := some "C" }

/-- A low-severity event reported in the morning, listed after `evHotLate`. -/
def evHotEarly : Event :=
  { timestamp := TsVal.raw "2024-07-02 08:15:00", severity := "low", location := some "D" }

/-- An event whose severity is spelled `"LOW"`. -/
def evShout : Event :=
  { timestamp := TsVal.raw "2024-05-01 00:00:00", severity := "LOW", location := some "S" }

/-- An event whose severity is spelled `"Low"`. -/
def evLowUc : Event :=
  { timestamp := TsVal.raw "2024-06-01 06:00:00", severity := "Low", location := some "U" }

/-- The same event with severity spelled `"low"`. -/
def evLowLc : Event :=
  { timestamp := TsVal.raw "2024-06-01 06:00:00", severity := "low", location := some "U" }

/-- A single high-severity event. -/
def evMedW : Event :=
  { timestamp := TsVal.raw "2024-08-09 01:02:03", severity := "high", location := some "W" }


/-- The report produced for `[evMed]`. -/
def repMed : Report where
  fires_addressed := { low := 0, medium := 1, high := 0 }
  fires_delayed := { low := 0, medium := 0, high := 0 }
  operational_costs := 2000
  estimated_damage_costs := 0

/-- The log produced for `[evMed]`. -/
def logsMed : List LogEntry :=
  [{ event_index := 0
     timestamp := { year := 2024, month := 3, day := 5, hour := 14, minute := 30, second := 0 }
     severity := "medium"
     location := "M"
     action := "Assigned"
     resource := some "Fire Engines"
     operational_cost := 2000 }]

/-- The final event list for `[evMed]`. -/
def finMed : List Event :=
  [{ timestamp := TsVal.parsed
       { year := 2024, month := 3, day := 5, hour := 14, minute := 30, second := 0 }
     severity := "medium"
     location := some "M" }]

/-- The report produced for `[evLate, evEarly]`. -/
def repPair : Report where
  fires_addressed := { low := 2, medium := 0, high := 0 }
  fires_delayed := { low := 0, medium := 0, high := 0 }
  operational_costs := 4000
  estimated_damage_costs := 0

/-- The log produced for `[evLate, evEarly]`: the 09:00 event (input
position 1, location "B") is processed first and logged with index 0. -/
def logsPair : List LogEntry :=
  [{ event_index := 0
     timestamp := { year := 2024, month := 1, day := 1, hour := 9, minute := 0, second := 0 }
     severity := "low"
     location := "B"
     action := "Assigned"
     resource := some "Fire Engines"
     operational_cost := 2000 },
   { event_index := 1
     timestamp := { year := 2024, month := 1, day := 1, hour := 10, minute := 0, second := 0 }
     severity := "low"
     location := "A"
     action := "Assigned"
     resource := some "Fire Engines"
     operational_cost := 2000 }]

/-- The final event list for `[evLate, evEarly]`. -/
def finPair : List Event :=
  [{ timestamp := TsVal.parsed
       { year := 2024, month := 1, day := 1, hour := 9, minute := 0, second := 0 }
     severity := "low"
     location := some "B" },
   { timestamp := TsVal.parsed
       { year := 2024, month := 1, day := 1, hour := 10, minute := 0, second := 0 }
     severity := "low"
     location := some "A" }]

/-- The report produced for `[evHotLate, evHotEarly]`. -/
def repHot : Report where
  fires_addressed := { low := 1, medium := 0, high := 1 }
  fires_delayed := { low := 0, medium := 0, high := 0 }
  operational_costs := 7000
  estimated_damage_costs := 0

/-- The log produced for `[evHotLate, evHotEarly]`. -/
def logsHot : List LogEntry :=
  [{ event_index := 0
     timestamp := { year := 2024, month := 7, day := 2, hour := 8, minute := 15, second := 0 }
     severity := "low"
     location := "D"
     action := "Assigned"
     resource := some "Fire Engines"
     operational_cost := 2000 },
   { event_index := 1
     timestamp := { year := 2024, month := 7, day := 2, hour := 12, minute := 0, second := 0 }
     severity := "high"
     location := "C"
     action := "Assigned"
     resource := some "Smoke Jumpers"
     operational_cost := 5000 }]

/-- The final event list for `[evHotLate, evHotEarly]`: reordered (the
08:15 event first) with parsed timestamps. -/
def finHot : List Event :=
  [{ timestamp := TsVal.parsed
       { year := 2024, month := 7, day := 2, hour := 8, minute := 15, second := 0 }
     severity := "low"
     location := some "D" },
   { timestamp := TsVal.parsed
       { year := 2024, month := 7, day := 2, hour := 12, minute := 0, second := 0 }
     severity := "high"
     location := some "C" }]

/-! ### Claim C1 -/

/-- Claim C1: `allowed_low_misses` is `max(0, incident count − pool size)`,
computed once from the input before processing; across the run the
number of MissedByLowPolicy outcomes (log entries whose action is the
allowed-low-miss string, i.e. neither `"Assigned"` nor
`"Missed (no resources)"`) never exceeds this allowance and reaches it
exactly whenever the input has at least that many low-severity
incidents. -/
theorem c1_allowed_low_misses (ev : List Event) (r : Report) (logs : List LogEntry)
    (fin : List Event) (h : simulate_deployment ev = Except.ok (r, logs, fin)) :
    logs.countP lowPolicyLog ≤ (allowed_low_misses ev).toNat ∧
    ((allowed_low_misses ev).toNat ≤
        ev.countP (fun e => decide (strLower e.severity = "low")) →
      logs.countP lowPolicyLog = (allowed_low_misses ev).toNat) := by
  obtain ⟨sorted, stF, hsd, hrl, hlogs, hr⟩ := simulate_inv h
  obtain ⟨rl1, rl2⟩ := runLoop_low hrl
  have hA : 0 ≤ allowed_low_misses ev := le_max_left 0 _
  have hcnt := rl2 hA (Nat.zero_le _)
  have hperm : List.countP (fun e => decide (strLower e.severity = "low")) sorted =
      List.countP (fun e => decide (strLower e.severity = "low")) ev :=
    (sort_data_perm hsd).countP_eq _
  subst hlogs
  simp only [initState, List.countP_nil] at rl1 hcnt
  omega

/-- Witness for C1 at a single-event input (allowance 0 there). -/
theorem c1_witness :
    simulate_deployment [evMed] = Except.ok (repMed, logsMed, finMed) ∧
    (logsMed.countP lowPolicyLog ≤ (allowed_low_misses [evMed]).toNat ∧
     ((allowed_low_misses [evMed]).toNat ≤
         [evMed].countP (fun e => decide (strLower e.severity = "low")) →
       logsMed.countP lowPolicyLog = (allowed_low_misses [evMed]).toNat)) :=
  ⟨by rfl, c1_allowed_low_misses [evMed] repMed logsMed finMed (by rfl)⟩

/-! ### Claim C2 -/

/-- Claim C2 as stated is false for `simulate_deployment`: the loop
enumerates the already-sorted list, so `event_index` is the post-sort
position.  With input `[evLate, evEarly]` (10:00 listed first, 09:00
second), the entry for the incident at input position 1 (location "B")
carries `event_index` 0. -/
theorem c2_event_index_counterexample :
    (simulate_deployment [evLate, evEarly]).toOption.map
        (fun x => x.2.1.map (fun L => (L.event_index, L.location))) =
      some [(0, "B"), (1, "A")] := by rfl

/-- Claim C2, amended: `event_index` is the incident's position in the
sorted processing order — log entries are indexed 0, 1, 2, … in
processing order — not its position in the original unsorted input
(the pandas variant in `samp.py`, whose rows keep their original frame
index, does preserve the input position). -/
theorem c2_event_index_is_sorted_position (ev : List Event) (r : Report)
    (logs : List LogEntry) (fin : List Event)
    (h : simulate_deployment ev = Except.ok (r, logs, fin)) :
    logs.map (fun L => L.event_index) = List.range logs.length := by
  obtain ⟨sorted, stF, hsd, hrl, hlogs, hr⟩ := simulate_inv h
  obtain ⟨l1, l2, -, -⟩ := runLoop_logs hrl
  subst hlogs
  simp only [initState, List.length_nil, List.map_nil, List.nil_append,
    Nat.zero_add] at l1 l2
  rw [l2, l1, List.range_eq_range']

/-- Witness for the amended C2. -/
theorem c2_amended_witness :
    simulate_deployment [evLate, evEarly] = Except.ok (repPair, logsPair, finPair) ∧
    logsPair.map (fun L => L.event_index) = List.range logsPair.length :=
  ⟨by rfl, c2_event_index_is_sorted_position [evLate, evEarly] repPair logsPair finPair (by rfl)⟩

/-! ### Claim C4 -/

/-- Claim C4 is refuted by the code (code bug): severity is meant to be
case-insensitive (the loop lowercases it, "ensure lower-case"), but
`sort_data` runs first and indexes `severity_order` with the raw string,
whose keys are the exact lowercase spellings.  The all-lowercase input
simulates fine; respelling the severity `"Low"` raises a `KeyError`
instead of producing the same outcome. -/
theorem c4_case_normalization_bug :
    strLower "Low" = "low" ∧
    (∃ r logs fin, simulate_deployment [evLowLc] = Except.ok (r, logs, fin)) ∧
    simulate_deployment [evLowUc] = Except.error "KeyError: severity" :=
  ⟨by decide, ⟨_, _, _, rfl⟩, rfl⟩

/-! ### Claim C7 -/

/-- Claim C7 as stated is false: the severity `"LOW"` lowercases into the
allowed set, yet the simulator raises a `KeyError` in `sort_data` (whose
lookup precedes lowercasing) and produces no log entries at all. -/
theorem c7_counterexample :
    strLower "LOW" = "low" ∧
    simulate_deployment [evShout] = Except.error "KeyError: severity" :=
  ⟨by decide, rfl⟩

/-- Claim C7, amended: for inputs whose severities are exactly the
lowercase strings low / medium / high and whose timestamps parse, the
simulator succeeds with exactly one log entry per incident, and for
each severity the addressed plus missed counts equal the input count of
that severity. -/
theorem c7_one_log_per_incident (ev : List Event)
    (hsev : ∀ e ∈ ev, e.severity = "low" ∨ e.severity = "medium" ∨ e.severity = "high")
    (hts : ∀ e ∈ ev, ∃ s d, e.timestamp = TsVal.raw s ∧ strptime s = some d) :
    ∃ r logs fin, simulate_deployment ev = Except.ok (r, logs, fin) ∧
      logs.length = ev.length ∧
      r.fires_addressed.low + r.fires_delayed.low =
        ev.countP (fun e => decide (e.severity = "low")) ∧
      r.fires_addressed.medium + r.fires_delayed.medium =
        ev.countP (fun e => decide (e.severity = "medium")) ∧
      r.fires_addressed.high + r.fires_delayed.high =
        ev.countP (fun e => decide (e.severity = "high")) := by
  obtain ⟨keyed, hdec⟩ := decorate_total hsev hts
  have hsd : sort_data ev = Except.ok
      ((stableSort (fun a b => keyLe a.1 b.1) keyed).map (fun p => p.2)) := by
    simp only [sort_data, hdec]
  have hperm := sort_data_perm hsd
  have hsev' : ∀ e ∈ (stableSort (fun a b => keyLe a.1 b.1) keyed).map (fun p => p.2),
      strLower e.severity = "low" ∨ strLower e.severity = "medium" ∨
        strLower e.severity = "high" := by
    intro e he
    rcases hsev e (hperm.mem_iff.mp he) with h1 | h1 | h1 <;> rw [h1]
    · exact Or.inl (by decide)
    · exact Or.inr (Or.inl (by decide))
    · exact Or.inr (Or.inr (by decide))
  have hts' : ∀ e ∈ (stableSort (fun a b => keyLe a.1 b.1) keyed).map (fun p => p.2),
      ∃ s d, e.timestamp = TsVal.raw s ∧ strptime s = some d := by
    intro e he
    exact hts e (hperm.mem_iff.mp he)
  obtain ⟨stF, fin, hrl⟩ := @runLoop_total (allowed_low_misses ev) _ initState 0 hsev' hts'
  obtain ⟨l1, -, -, -⟩ := runLoop_logs hrl
  obtain ⟨s1, s2, s3⟩ := runLoop_sev hrl
  have hlen : ((stableSort (fun a b => keyLe a.1 b.1) keyed).map (fun p => p.2)).length =
      ev.length := hperm.length_eq
  have hsl1 : strLower "low" = "low" := by decide
  have hsl2 : strLower "medium" = "medium" := by decide
  have hsl3 : strLower "high" = "high" := by decide
  have htrans : ∀ sv : String,
      List.countP (fun e => decide (strLower e.severity = sv))
          ((stableSort (fun a b => keyLe a.1 b.1) keyed).map (fun p => p.2)) =
        List.countP (fun e => decide (e.severity = sv)) ev := by
    intro sv
    rw [hperm.countP_eq]
    refine List.countP_congr ?_
    intro x hx
    rcases hsev x hx with h1 | h1 | h1 <;> rw [h1] <;>
      simp only [hsl1, hsl2, hsl3]
  refine ⟨{ fires_addressed := stF.addressed_by_severity
            fires_delayed := stF.missed_by_severity
            operational_costs := stF.total_operational_cost
            estimated_damage_costs := stF.total_damage_cost },
          stF.incident_logs, fin, ?_, ?_, ?_, ?_, ?_⟩
  · simp only [simulate_deployment, hsd, hrl]
  · simp only [initState, List.length_nil] at l1
    omega
  · simp only [initState] at s1
    rw [s1, htrans "low"]
    omega
  · simp only [initState] at s2
    rw [s2, htrans "medium"]
    omega
  · simp only [initState] at s3
    rw [s3, htrans "high"]
    omega

/-- Witness for the amended C7 at a single high-severity event. -/
theorem c7_witness :
    (∀ e ∈ [evMedW], e.severity = "low" ∨ e.severity = "medium" ∨
      e.severity = "high") ∧
    (∀ e ∈ [evMedW], ∃ s d, e.timestamp = TsVal.raw s ∧ strptime s = some d) ∧
    (∃ r logs fin, simulate_deployment [evMedW] = Except.ok (r, logs, fin) ∧
      logs.length = [evMedW].length ∧
      r.fires_addressed.low + r.fires_delayed.low =
        [evMedW].countP (fun e => decide (e.severity = "low")) ∧
      r.fires_addressed.medium + r.fires_delayed.medium =
        [evMedW].countP (fun e => decide (e.severity = "medium")) ∧
      r.fires_addressed.high + r.fires_delayed.high =
        [evMedW].countP (fun e => decide (e.severity = "high"))) :=
  ⟨by decide,
   by
     intro e he
     rw [List.mem_singleton] at he
     subst he
     exact ⟨_, _, rfl, rfl⟩,
   c7_one_log_per_incident [evMedW] (by decide)
     (by
       intro e he
       rw [List.mem_singleton] at he
       subst he
       exact ⟨_, _, rfl, rfl⟩)⟩

/-! ### Claim C10 -/

/-- Claim C10: `simulate_deployment` mutates its argument — after the
call the caller's list holds the incidents in sorted processing order
(the in-place `sort_data`), and every incident's `timestamp` slot holds
the parsed datetime instead of the original string. -/
theorem c10_simulate_mutates_input (ev : List Event) (r : Report)
    (logs : List LogEntry) (fin : List Event)
    (h : simulate_deployment ev = Except.ok (r, logs, fin)) :
    (∃ sorted, sort_data ev = Except.ok sorted ∧ fin = sorted.map eventParse) ∧
    ∀ e ∈ fin, ∃ d, e.timestamp = TsVal.parsed d := by
  obtain ⟨sorted, stF, hsd, hrl, hlogs, hr⟩ := simulate_inv h
  obtain ⟨-, -, l3, l4⟩ := runLoop_logs hrl
  exact ⟨⟨sorted, hsd, l3⟩, l4⟩

/-- Witness for C10: the two events come back reordered (the 08:15 event
first) with parsed timestamps — visibly different from the input list. -/
theorem c10_witness :
    simulate_deployment [evHotLate, evHotEarly] = Except.ok (repHot, logsHot, finHot) ∧
    ((∃ sorted, sort_data [evHotLate, evHotEarly] = Except.ok sorted ∧
        finHot = sorted.map eventParse) ∧
      ∀ e ∈ finHot, ∃ d, e.timestamp = TsVal.parsed d) ∧
    finHot ≠ [evHotLate, evHotEarly] :=
  ⟨by rfl,
   c10_simulate_mutates_input [evHotLate, evHotEarly] repHot logsHot finHot (by rfl),
   by decide⟩

end Wildfire
